import Mathlib

/-!
Verification development for the getwebsite repository (Go).

The Go code is shallowly embedded: Go strings are modelled as rune
(`Char`) lists (`GoStr`), with explicit UTF-8 byte accounting (`goLen`)
where the source uses Go's byte-counting `len`.  Stateful code is
modelled by explicit state passing.  Code that can panic (Go's
`strings.Repeat` with a negative count) returns `Option`.

External collaborators (the goquery/readability HTML parse, net/url
resolution, lipgloss styling, chroma highlighting, the image
rasterizer) are modelled through their call contracts: the parse result
is an explicit optional tree, URL resolution and rasterization are
function parameters, and lipgloss styling is modelled by concrete
functions that reproduce its line/padding/border structure with ANSI
escapes.
-/

set_option maxHeartbeats 2000000
set_option maxRecDepth 10000

/-! ## Go string primitives -/

/-- A Go string, modelled as its sequence of runes. -/
abbrev GoStr := List Char

/-- Embed a Lean string literal as a `GoStr`. -/
def gs (s : String) : GoStr := s.data

/-- Code points accepted by Go's `unicode.IsSpace`. -/
def goSpaceCodes : List Nat :=
  [9, 10, 11, 12, 13, 32, 0x85, 0xA0, 0x1680,
   0x2000, 0x2001, 0x2002, 0x2003, 0x2004, 0x2005, 0x2006, 0x2007,
   0x2008, 0x2009, 0x200A, 0x2028, 0x2029, 0x202F, 0x205F, 0x3000]

/-- Go `unicode.IsSpace`. -/
def goIsSpace (c : Char) : Bool := goSpaceCodes.contains c.toNat

/-- Helper for `goFields`: split a rune list on whitespace runs. -/
def goFieldsAux : GoStr → GoStr → List GoStr
  | [], acc => if acc.isEmpty then [] else [acc.reverse]
  | c :: rest, acc =>
    if goIsSpace c then
      (if acc.isEmpty then [] else [acc.reverse]) ++ goFieldsAux rest []
    else goFieldsAux rest (c :: acc)

/-- Go `strings.Fields`: whitespace-delimited tokens. -/
def goFields (s : GoStr) : List GoStr := goFieldsAux s []

/-- Go `strings.Join(xs, " ")`. -/
def joinSpace : List GoStr → GoStr
  | [] => []
  | [x] => x
  | x :: rest => x ++ ' ' :: joinSpace rest

/-- The replacement table of `decodeEntities`, in source argument order. -/
def entityTable : List (GoStr × GoStr) :=
  [(gs "&amp;", gs "&"),
   (gs "&lt;", gs "<"),
   (gs "&gt;", gs ">"),
   (gs "&quot;", gs "\""),
   (gs "&#39;", gs "'"),
   (gs "&apos;", gs "'"),
   (gs "&#x27;", gs "'"),
   (gs "&nbsp;", gs " "),
   (gs "&#160;", gs " "),
   (gs "&mdash;", gs "—"),
   (gs "&ndash;", gs "–"),
   (gs "&hellip;", gs "…"),
   (gs "&laquo;", gs "«"),
   (gs "&raquo;", gs "»"),
   (gs "&ldquo;", gs "“"),
   (gs "&rdquo;", gs "”"),
   (gs "&lsquo;", gs "‘"),
   (gs "&rsquo;", gs "’")]

/-- Left-to-right non-overlapping multi-pattern replacement, as
Go's `strings.Replacer` performs it (first matching pattern in argument
order wins at each position).  Fuel-driven; one rune is consumed per
step at minimum, so fuel equal to the input length suffices. -/
def replaceScan : Nat → List (GoStr × GoStr) → GoStr → GoStr
  | 0, _, s => s
  | _ + 1, _, [] => []
  | fuel + 1, tbl, c :: rest =>
    match tbl.find? (fun p => !p.1.isEmpty && p.1.isPrefixOf (c :: rest)) with
    | some p => p.2 ++ replaceScan fuel tbl ((c :: rest).drop p.1.length)
    | none => c :: replaceScan fuel tbl rest

/-- `decodeEntities` from the parser source. -/
def decodeEntities (s : GoStr) : GoStr := replaceScan s.length entityTable s

/-- `cleanText` from the parser source: decode entities, then collapse
whitespace runs and trim via Fields+Join. -/
def cleanText (s : GoStr) : GoStr := joinSpace (goFields (decodeEntities s))

/-- Tag-stripping scanner of `stripTags` (before the final TrimSpace). -/
def stripTagsAux : Bool → GoStr → GoStr
  | _, [] => []
  | inTag, c :: rest =>
    if c = '<' then stripTagsAux true rest
    else if c = '>' then stripTagsAux false rest
    else if inTag then stripTagsAux inTag rest
    else c :: stripTagsAux inTag rest

/-- Go `strings.TrimSpace`. -/
def goTrimSpace (s : GoStr) : GoStr :=
  ((s.dropWhile goIsSpace).reverse.dropWhile goIsSpace).reverse

/-- `stripTags` from the parser source. -/
def stripTags (s : GoStr) : GoStr := goTrimSpace (stripTagsAux false s)

/-- Go `strings.TrimRight(s, cutset)`. -/
def goTrimRight (s : GoStr) (cutset : List Char) : GoStr :=
  (s.reverse.dropWhile (fun c => cutset.contains c)).reverse

/-- Go `strings.TrimPrefix`. -/
def goTrimPrefix (pre s : GoStr) : GoStr :=
  if pre.isPrefixOf s then s.drop pre.length else s

/-- Go `strings.ToLower` (rune-wise). -/
def goToLower (s : GoStr) : GoStr := s.map Char.toLower

/-- Go `strings.Contains` (contiguous substring test). -/
def goContains : GoStr → GoStr → Bool
  | hay, needle =>
    if needle.isPrefixOf hay then true
    else match hay with
      | [] => false
      | _ :: t => goContains t needle

/-- Decimal digits of a natural number, as a Go string. -/
def natStr (n : Nat) : GoStr := Nat.toDigits 10 n

/-- Number of newline characters in a Go string. -/
def countNL (s : GoStr) : Nat := s.count '\n'

/-- Helper for `splitNL`. -/
def splitNLAux : GoStr → GoStr → List GoStr
  | [], acc => [acc.reverse]
  | c :: rest, acc =>
    if c = '\n' then acc.reverse :: splitNLAux rest []
    else splitNLAux rest (c :: acc)

/-- Go `strings.Split(s, "\n")`. -/
def splitNL (s : GoStr) : List GoStr := splitNLAux s []

/-- Join lines with newlines (inverse of `splitNL`). -/
def joinNL : List GoStr → GoStr
  | [] => []
  | [l] => l
  | l :: rest => l ++ '\n' :: joinNL rest

/-- UTF-8 byte length of a Go string (Go's `len`). -/
def goLen (s : GoStr) : Nat := (s.map Char.utf8Size).sum

/-- Byte-indexed prefix slice `s[:k]`, modelled at rune granularity: a
rune straddling the cut is dropped. -/
def byteTake : Nat → GoStr → GoStr
  | _, [] => []
  | k, c :: rest =>
    if c.utf8Size ≤ k then c :: byteTake (k - c.utf8Size) rest else []

/-! ## Parser data model (`internal/parser`) -/

inductive BlockType where
  | heading | paragraph | code | list | quote | image | hr | table
deriving DecidableEq, Repr

/-- `parser.ContentBlock`: the Go struct is flat, with a `Type`
discriminant and per-kind payload fields left at zero values. -/
structure ContentBlock where
  type : BlockType
  text : GoStr := []
  level : Nat := 0
  language : GoStr := []
  items : List GoStr := []
  ordered : Bool := false
  alt : GoStr := []
  url : GoStr := []
  rows : List (List GoStr) := []
  header : Bool := false
deriving DecidableEq, Repr

/-- `parser.Link`. -/
structure Link where
  index : Nat
  text : GoStr
  url : GoStr
deriving DecidableEq, Repr

/-- `parser.Article` (fetch metadata that no claim touches is omitted). -/
structure Article where
  title : GoStr := []
  author : GoStr := []
  siteName : GoStr := []
  content : List ContentBlock := []
  links : List Link := []
deriving DecidableEq, Repr

/-! ## The parsed-markup tree (goquery's contract) -/

/-- A node of the parsed HTML tree: a text node or an element with a
tag name, attributes and children. -/
inductive GNode where
  | text : GoStr → GNode
  | elem : String → List (String × GoStr) → List GNode → GNode
deriving Repr

/-- Children of a node (`Selection.Contents` of an element). -/
def childrenOf : GNode → List GNode
  | .text _ => []
  | .elem _ _ cs => cs

/-- Element children only (`Selection.Children`). -/
def elemChildren (cs : List GNode) : List GNode :=
  cs.filter fun c => match c with | .elem _ _ _ => true | .text _ => false

/-- First attribute value with the given key (`html` attribute lookup). -/
def attrOf (attrs : List (String × GoStr)) (key : String) : Option GoStr :=
  match attrs.find? (fun p => p.1 = key) with
  | some p => some p.2
  | none => none

mutual
/-- Concatenated descendant text of a node (`Selection.Text`). -/
def nodeText : GNode → GoStr
  | .text s => s
  | .elem _ _ cs => nodeTextList cs

def nodeTextList : List GNode → GoStr
  | [] => []
  | c :: rest => nodeText c ++ nodeTextList rest
end

mutual
/-- All matching nodes inside a forest, in document order, roots
included (used to model `Selection.Find`). -/
def findAllList (tag : String) : List GNode → List GNode
  | [] => []
  | c :: rest => findAllIn tag c ++ findAllList tag rest

def findAllIn (tag : String) : GNode → List GNode
  | .text _ => []
  | .elem t a cs =>
    (if t = tag then [GNode.elem t a cs] else []) ++ findAllList tag cs
end

/-- `Selection.Find(tag)` on a node: matching strict descendants. -/
def findDesc (tag : String) (n : GNode) : List GNode :=
  findAllList tag (childrenOf n)

/-- `Selection.Text` over a whole selection (concatenates every node). -/
def selText (sel : List GNode) : GoStr := nodeTextList sel

/-- `Selection.Attr` over a selection: attribute of the first node,
with Go's ("", false) missing-case collapsed to the empty string. -/
def selAttr (sel : List GNode) (key : String) : GoStr :=
  match sel with
  | [] => []
  | .text _ :: _ => []
  | .elem _ attrs _ :: _ => (attrOf attrs key).getD []

/-- `goquery.NodeName`. -/
def nodeName : GNode → String
  | .text _ => "#text"
  | .elem t _ _ => t

/-! ## The extractor (`parseContext`) -/

/-- `parser.parseContext`: the mutable extraction state. -/
structure PCtx where
  blocks : List ContentBlock := []
  links : List Link := []
  linkIdx : Nat := 0
deriving Repr

mutual
/-- `parseContext.extractTextWithLinks`: walk an element's contents,
replacing qualifying anchors by "text [N]" while appending `Link`
entries, then whitespace-normalize the decoded concatenation. -/
def extractTextWithLinks (resolve : GoStr → GoStr) (st : PCtx) (n : GNode) :
    PCtx × GoStr :=
  let r := extractContents resolve st (childrenOf n)
  (r.1, joinSpace (goFields (decodeEntities r.2)))

def extractContents (resolve : GoStr → GoStr) (st : PCtx) :
    List GNode → PCtx × GoStr
  | [] => (st, [])
  | c :: rest =>
    let r1 := extractChild resolve st c
    let r2 := extractContents resolve r1.1 rest
    (r2.1, r1.2 ++ r2.2)

def extractChild (resolve : GoStr → GoStr) (st : PCtx) : GNode → PCtx × GoStr
  | .text s => (st, s)
  | .elem tag attrs cs =>
    if tag = "a" then
      let t := cleanText (nodeTextList cs)
      if t = [] then (st, [])
      else
        match attrOf attrs "href" with
        | some href =>
          if href ≠ [] ∧ href ≠ gs "#" then
            let idx := st.linkIdx + 1
            ({ st with
               linkIdx := idx,
               links := st.links ++ [⟨idx, t, resolve href⟩] },
             t ++ ' ' :: '[' :: natStr idx ++ [']'])
          else (st, t)
        | none => (st, t)
    else
      let r := extractContents resolve st cs
      (r.1, joinSpace (goFields (decodeEntities r.2)))
end

/-- Append a block. -/
def pushBlock (st : PCtx) (b : ContentBlock) : PCtx :=
  { st with blocks := st.blocks ++ [b] }

/-- Heading level from the tag name (`tagName[1] - '0'`). -/
def headingLevel (tag : String) : Nat :=
  match tag.data with
  | _ :: d :: _ => d.toNat - '0'.toNat
  | _ => 0

/-- Collect `li` items via `extractTextWithLinks`, keeping non-empty
texts (the `ul`/`ol` case's inner loop). -/
def collectItems (resolve : GoStr → GoStr) (st : PCtx) :
    List GNode → PCtx × List GoStr
  | [] => (st, [])
  | li :: rest =>
    let r := extractTextWithLinks resolve st li
    let r2 := collectItems resolve r.1 rest
    (r2.1, (if r.2 = [] then [] else [r.2]) ++ r2.2)

mutual
/-- `parseContext.extractBlocks`: dispatch on the element's tag. -/
def extractBlocks (resolve : GoStr → GoStr) (st : PCtx) : GNode → PCtx
  | .text _ =>
    -- NodeName is "#text": falls to the default branch, whose
    -- extractTextWithLinks over an empty Contents yields "".
    st
  | .elem tag attrs cs =>
    if tag = "h1" ∨ tag = "h2" ∨ tag = "h3" ∨
       tag = "h4" ∨ tag = "h5" ∨ tag = "h6" then
      let t := cleanText (nodeTextList cs)
      if t = [] then st
      else pushBlock st { type := .heading, level := headingLevel tag, text := t }
    else if tag = "p" then
      let r := extractTextWithLinks resolve st (.elem tag attrs cs)
      if r.2 = [] then r.1
      else pushBlock r.1 { type := .paragraph, text := r.2 }
    else if tag = "pre" then
      let codeSel := findAllList "code" cs
      let t0 := if codeSel.length > 0 then selText codeSel else nodeTextList cs
      let t := goTrimRight t0 ['\n', '\t', ' ']
      if t = [] then st
      else
        let lang := goTrimPrefix (gs "language-") (selAttr codeSel "class")
        pushBlock st { type := .code, text := t, language := lang }
    else if tag = "ul" ∨ tag = "ol" then
      let r := collectItems resolve st (findAllList "li" cs)
      if r.2.length > 0 then
        pushBlock r.1 { type := .list, items := r.2, ordered := tag = "ol" }
      else r.1
    else if tag = "blockquote" then
      let r := extractTextWithLinks resolve st (.elem tag attrs cs)
      if r.2 = [] then r.1
      else pushBlock r.1 { type := .quote, text := r.2 }
    else if tag = "hr" then
      pushBlock st { type := .hr }
    else if tag = "figure" then
      let imgSel := findAllList "img" cs
      let st1 :=
        if imgSel.length > 0 then
          pushBlock st { type := .image, alt := selAttr imgSel "alt",
                         url := resolve (selAttr imgSel "src") }
        else st
      let capSel := findAllList "figcaption" cs
      if capSel.length > 0 then
        let t := cleanText (selText capSel)
        if t = [] then st1
        else pushBlock st1 { type := .paragraph, text := t }
      else st1
    else if tag = "img" then
      pushBlock st { type := .image, alt := (attrOf attrs "alt").getD [],
                     url := resolve ((attrOf attrs "src").getD []) }
    else if tag = "div" ∨ tag = "section" ∨ tag = "article" ∨ tag = "main" then
      -- `Selection.Children` visits element children only; visiting a
      -- text node is a no-op here (see the `.text` case), so recursing
      -- over all children is equivalent and keeps recursion structural.
      extractBlocksList resolve st cs
    else
      let r := extractTextWithLinks resolve st (.elem tag attrs cs)
      if r.2 = [] then r.1
      else pushBlock r.1 { type := .paragraph, text := r.2 }

def extractBlocksList (resolve : GoStr → GoStr) (st : PCtx) :
    List GNode → PCtx
  | [] => st
  | c :: rest => extractBlocksList resolve (extractBlocks resolve st c) rest
end

/-- `parser.parseHTML`: `parsed` is the goquery outcome (`none` models
a failed tree parse); on failure the raw markup is tag-stripped into at
most one Paragraph with no links. -/
def parseHTML (resolve : GoStr → GoStr) (parsed : Option GNode) (raw : GoStr) :
    List ContentBlock × List Link :=
  match parsed with
  | none =>
    let t := stripTags raw
    if t ≠ [] then ([{ type := .paragraph, text := t }], [])
    else ([], [])
  | some body =>
    let st := extractBlocksList resolve {} (elemChildren (childrenOf body))
    (st.blocks, st.links)

/-- `parser.Parse`: readability gives title/byline/site and a content
fragment; the title falls back to the page URL when empty.  The
readability outcome and the goquery parse are the external
collaborators' contract inputs. -/
def parseArticle (resolve : GoStr → GoStr) (title author siteName : GoStr)
    (pageURL : GoStr) (parsed : Option GNode) (raw : GoStr) : Article :=
  let r := parseHTML resolve parsed raw
  { title := if title = [] then pageURL else title
    author := author
    siteName := siteName
    content := r.1
    links := r.2 }

/-! ## Parser invariants -/

/-- The link-numbering invariant of the extraction state: the running
counter equals the number of collected links, whose indices read
1, 2, ..., N in order. -/
def LinkInv (st : PCtx) : Prop :=
  st.linkIdx = st.links.length ∧
  st.links.map Link.index = List.range' 1 st.links.length

theorem linkInv_init : LinkInv {} := by
  constructor <;> rfl

mutual
theorem linkInv_extractContents (resolve : GoStr → GoStr) (st : PCtx)
    (cs : List GNode) (h : LinkInv st) :
    LinkInv (extractContents resolve st cs).1 := by
  match cs with
  | [] => simpa [extractContents] using h
  | c :: rest =>
    simp only [extractContents]
    exact linkInv_extractContents resolve _ rest (linkInv_extractChild resolve st c h)

theorem linkInv_extractChild (resolve : GoStr → GoStr) (st : PCtx)
    (c : GNode) (h : LinkInv st) :
    LinkInv (extractChild resolve st c).1 := by
  match c with
  | .text s => simpa [extractChild] using h
  | .elem tag attrs cs =>
    simp only [extractChild]
    split
    · split
      · exact h
      · split
        · split
          · obtain ⟨h1, h2⟩ := h
            refine ⟨by simp [h1], ?_⟩
            simp [h2, List.range'_1_concat, h1, Nat.add_comm]
          · exact h
        · exact h
    · exact linkInv_extractContents resolve st cs h
end

theorem linkInv_extractTextWithLinks (resolve : GoStr → GoStr) (st : PCtx)
    (n : GNode) (h : LinkInv st) :
    LinkInv (extractTextWithLinks resolve st n).1 := by
  simp only [extractTextWithLinks]
  exact linkInv_extractContents resolve st (childrenOf n) h

theorem linkInv_collectItems (resolve : GoStr → GoStr) (st : PCtx)
    (lis : List GNode) (h : LinkInv st) :
    LinkInv (collectItems resolve st lis).1 := by
  induction lis generalizing st with
  | nil => simpa [collectItems] using h
  | cons li rest ih =>
    simp only [collectItems]
    exact ih _ (linkInv_extractTextWithLinks resolve st li h)

theorem linkInv_pushBlock (st : PCtx) (b : ContentBlock) (h : LinkInv st) :
    LinkInv (pushBlock st b) := by
  simpa [LinkInv, pushBlock] using h


/-! ## Block well-formedness (claim C10) -/

/-- Non-emptiness of a block's text payload, per kind: Heading,
Paragraph and Quote carry non-empty normalized text; Code carries text
whose right-trim is non-empty; List carries at least one item. -/
def okBlock (b : ContentBlock) : Bool :=
  (if b.type = .heading ∨ b.type = .paragraph ∨ b.type = .quote
   then !b.text.isEmpty else true) &&
  (if b.type = .code
   then !(goTrimRight b.text ['\n', '\t', ' ']).isEmpty else true) &&
  (if b.type = .list then !b.items.isEmpty else true)

theorem goTrimRight_idem (s : GoStr) (cutset : List Char) :
    goTrimRight (goTrimRight s cutset) cutset = goTrimRight s cutset := by
  simp [goTrimRight, List.dropWhile_idempotent]

theorem okBlock_heading (lv : Nat) (t : GoStr) (ht : ¬t = []) :
    okBlock { type := .heading, level := lv, text := t } = true := by
  simp [okBlock, List.isEmpty_iff, ht]

theorem okBlock_paragraph (t : GoStr) (ht : ¬t = []) :
    okBlock { type := .paragraph, text := t } = true := by
  simp [okBlock, List.isEmpty_iff, ht]

theorem okBlock_quote (t : GoStr) (ht : ¬t = []) :
    okBlock { type := .quote, text := t } = true := by
  simp [okBlock, List.isEmpty_iff, ht]

theorem okBlock_code (t0 lang : GoStr)
    (ht : ¬goTrimRight t0 ['\n', '\t', ' '] = []) :
    okBlock { type := .code, text := goTrimRight t0 ['\n', '\t', ' '],
              language := lang } = true := by
  simp only [okBlock]
  simp [goTrimRight_idem, List.isEmpty_iff, ht]

theorem okBlock_list (items : List GoStr) (ord : Bool)
    (hi : items.length > 0) :
    okBlock { type := .list, items := items, ordered := ord } = true := by
  cases items with
  | nil => simp at hi
  | cons a l => simp [okBlock]

theorem okBlock_image (alt url : GoStr) :
    okBlock { type := .image, alt := alt, url := url } = true := by
  simp [okBlock]

theorem okBlock_hr : okBlock { type := .hr } = true := by
  simp [okBlock]

/-! ## Combined extraction-state invariant -/

/-- Combined invariant: link numbering is 1..N and every collected
block is well-formed. -/
def StInv (st : PCtx) : Prop :=
  LinkInv st ∧ st.blocks.all okBlock = true

mutual
theorem blocks_extractContents (resolve : GoStr → GoStr) (st : PCtx)
    (cs : List GNode) :
    (extractContents resolve st cs).1.blocks = st.blocks := by
  match cs with
  | [] => simp [extractContents]
  | c :: rest =>
    simp only [extractContents]
    rw [blocks_extractContents resolve _ rest, blocks_extractChild resolve st c]

theorem blocks_extractChild (resolve : GoStr → GoStr) (st : PCtx)
    (c : GNode) :
    (extractChild resolve st c).1.blocks = st.blocks := by
  match c with
  | .text s => simp [extractChild]
  | .elem tag attrs cs =>
    simp only [extractChild]
    split
    · split
      · rfl
      · split
        · split
          · rfl
          · rfl
        · rfl
    · exact blocks_extractContents resolve st cs
end

theorem blocks_extractTextWithLinks (resolve : GoStr → GoStr) (st : PCtx)
    (n : GNode) :
    (extractTextWithLinks resolve st n).1.blocks = st.blocks := by
  simp only [extractTextWithLinks]
  exact blocks_extractContents resolve st (childrenOf n)

theorem blocks_collectItems (resolve : GoStr → GoStr) (st : PCtx)
    (lis : List GNode) :
    (collectItems resolve st lis).1.blocks = st.blocks := by
  induction lis generalizing st with
  | nil => simp [collectItems]
  | cons li rest ih =>
    simp only [collectItems]
    rw [ih _, blocks_extractTextWithLinks resolve st li]

theorem stInv_extractTextWithLinks (resolve : GoStr → GoStr) (st : PCtx)
    (n : GNode) (h : StInv st) :
    StInv (extractTextWithLinks resolve st n).1 := by
  refine ⟨linkInv_extractTextWithLinks resolve st n h.1, ?_⟩
  rw [blocks_extractTextWithLinks resolve st n]
  exact h.2

theorem stInv_collectItems (resolve : GoStr → GoStr) (st : PCtx)
    (lis : List GNode) (h : StInv st) :
    StInv (collectItems resolve st lis).1 := by
  refine ⟨linkInv_collectItems resolve st lis h.1, ?_⟩
  rw [blocks_collectItems resolve st lis]
  exact h.2

theorem stInv_pushBlock (st : PCtx) (b : ContentBlock) (h : StInv st)
    (hb : okBlock b = true) :
    StInv (pushBlock st b) := by
  refine ⟨linkInv_pushBlock st b h.1, ?_⟩
  have h2 := h.2
  simp only [pushBlock, List.all_append, List.all_cons, List.all_nil] at h2 ⊢
  simp [h2, hb]

mutual
theorem stInv_extractBlocks (resolve : GoStr → GoStr) (st : PCtx)
    (n : GNode) (h : StInv st) :
    StInv (extractBlocks resolve st n) := by
  rw [extractBlocks.eq_def]
  split
  · exact h
  · rename_i tag attrs cs
    by_cases h1 : tag = "h1" ∨ tag = "h2" ∨ tag = "h3" ∨
                  tag = "h4" ∨ tag = "h5" ∨ tag = "h6"
    · rw [if_pos h1]
      by_cases h2 : cleanText (nodeTextList cs) = []
      · rw [if_pos h2]; exact h
      · rw [if_neg h2]
        exact stInv_pushBlock _ _ h (okBlock_heading _ _ h2)
    · rw [if_neg h1]
      by_cases h2 : tag = "p"
      · rw [if_pos h2]
        by_cases h3 : (extractTextWithLinks resolve st (.elem tag attrs cs)).2 = []
        · rw [if_pos h3]
          exact stInv_extractTextWithLinks resolve st _ h
        · rw [if_neg h3]
          exact stInv_pushBlock _ _ (stInv_extractTextWithLinks resolve st _ h)
            (okBlock_paragraph _ h3)
      · rw [if_neg h2]
        by_cases h3 : tag = "pre"
        · rw [if_pos h3]
          by_cases h4 : goTrimRight
              (if (findAllList "code" cs).length > 0
               then selText (findAllList "code" cs)
               else nodeTextList cs) ['\n', '\t', ' '] = []
          · rw [if_pos h4]; exact h
          · rw [if_neg h4]
            exact stInv_pushBlock _ _ h (okBlock_code _ _ h4)
        · rw [if_neg h3]
          by_cases h4 : tag = "ul" ∨ tag = "ol"
          · rw [if_pos h4]
            by_cases h5 : (collectItems resolve st (findAllList "li" cs)).2.length > 0
            · rw [if_pos h5]
              exact stInv_pushBlock _ _ (stInv_collectItems resolve st _ h)
                (okBlock_list _ _ h5)
            · rw [if_neg h5]
              exact stInv_collectItems resolve st _ h
          · rw [if_neg h4]
            by_cases h5 : tag = "blockquote"
            · rw [if_pos h5]
              by_cases h6 : (extractTextWithLinks resolve st (.elem tag attrs cs)).2 = []
              · rw [if_pos h6]
                exact stInv_extractTextWithLinks resolve st _ h
              · rw [if_neg h6]
                exact stInv_pushBlock _ _ (stInv_extractTextWithLinks resolve st _ h)
                  (okBlock_quote _ h6)
            · rw [if_neg h5]
              by_cases h6 : tag = "hr"
              · rw [if_pos h6]
                exact stInv_pushBlock _ _ h okBlock_hr
              · rw [if_neg h6]
                by_cases h7 : tag = "figure"
                · rw [if_pos h7]
                  dsimp only
                  by_cases h8 : (findAllList "img" cs).length > 0
                  · rw [if_pos h8]
                    have hst1 : StInv (pushBlock st
                        { type := .image, alt := selAttr (findAllList "img" cs) "alt",
                          url := resolve (selAttr (findAllList "img" cs) "src") }) :=
                      stInv_pushBlock _ _ h (okBlock_image _ _)
                    by_cases h9 : (findAllList "figcaption" cs).length > 0
                    · rw [if_pos h9]
                      by_cases h10 : cleanText (selText (findAllList "figcaption" cs)) = []
                      · rw [if_pos h10]; exact hst1
                      · rw [if_neg h10]
                        exact stInv_pushBlock _ _ hst1 (okBlock_paragraph _ h10)
                    · rw [if_neg h9]; exact hst1
                  · rw [if_neg h8]
                    by_cases h9 : (findAllList "figcaption" cs).length > 0
                    · rw [if_pos h9]
                      by_cases h10 : cleanText (selText (findAllList "figcaption" cs)) = []
                      · rw [if_pos h10]; exact h
                      · rw [if_neg h10]
                        exact stInv_pushBlock _ _ h (okBlock_paragraph _ h10)
                    · rw [if_neg h9]; exact h
                · rw [if_neg h7]
                  by_cases h8 : tag = "img"
                  · rw [if_pos h8]
                    exact stInv_pushBlock _ _ h (okBlock_image _ _)
                  · rw [if_neg h8]
                    by_cases h9 : tag = "div" ∨ tag = "section" ∨
                                  tag = "article" ∨ tag = "main"
                    · rw [if_pos h9]
                      exact stInv_extractBlocksList resolve st cs h
                    · rw [if_neg h9]
                      by_cases h10 : (extractTextWithLinks resolve st (.elem tag attrs cs)).2 = []
                      · rw [if_pos h10]
                        exact stInv_extractTextWithLinks resolve st _ h
                      · rw [if_neg h10]
                        exact stInv_pushBlock _ _
                          (stInv_extractTextWithLinks resolve st _ h)
                          (okBlock_paragraph _ h10)

theorem stInv_extractBlocksList (resolve : GoStr → GoStr) (st : PCtx)
    (cs : List GNode) (h : StInv st) :
    StInv (extractBlocksList resolve st cs) := by
  match cs with
  | [] => simpa [extractBlocksList] using h
  | c :: rest =>
    simp only [extractBlocksList]
    exact stInv_extractBlocksList resolve _ rest (stInv_extractBlocks resolve st c h)
end

/-! ## Claim C1 -/

/-- A document-order body with two anchors sharing one href. -/
def dupAnchorBody : GNode :=
  .elem "body" []
    [.elem "p" []
      [.elem "a" [("href", gs "/x")] [.text (gs "one")],
       .elem "a" [("href", gs "/x")] [.text (gs "two")]]]

/-- C1: for every Document produced by extraction, the Link indices are
exactly 1..N in order of appearance (no gaps), and a qualifying anchor
occurrence always appends one fresh entry whose index is the previous
count plus one — independent of the state, hence also when its URL
equals an earlier entry's URL (no deduplication). -/
theorem C1_link_indices_no_dedup (resolve : GoStr → GoStr)
    (parsed : Option GNode) (raw : GoStr) :
    ((parseHTML resolve parsed raw).2.map Link.index
      = List.range' 1 (parseHTML resolve parsed raw).2.length)
  ∧ (∀ (st : PCtx) (attrs : List (String × GoStr)) (cs : List GNode)
       (href : GoStr),
      attrOf attrs "href" = some href → ¬href = [] → ¬href = gs "#" →
      ¬cleanText (nodeTextList cs) = [] →
      (extractChild resolve st (.elem "a" attrs cs)).1.links
        = st.links ++ [⟨st.linkIdx + 1, cleanText (nodeTextList cs),
                        resolve href⟩]) := by
  constructor
  · match parsed with
    | none =>
      simp only [parseHTML]
      split
      · simp
      · simp
    | some body =>
      have h := stInv_extractBlocksList resolve {}
        (elemChildren (childrenOf body)) ⟨linkInv_init, rfl⟩
      simpa [parseHTML] using h.1.2
  · intro st attrs cs href h1 h2 h3 h4
    simp only [extractChild]
    rw [if_pos trivial, if_neg h4, h1]
    dsimp only
    rw [if_pos ⟨h2, h3⟩]

/-- C1 witness: two same-href anchors produce indices [1, 2] (two
distinct entries), and a qualifying anchor at a concrete state appends
exactly one link. -/
theorem C1_witness :
    (parseHTML (fun u => u) (some dupAnchorBody) []).2.map Link.index = [1, 2]
  ∧ (extractChild (fun u => u) {} (.elem "a" [("href", gs "/x")]
       [.text (gs "w")])).1.links = [⟨1, gs "w", gs "/x"⟩] :=
  ⟨((C1_link_indices_no_dedup (fun u => u) (some dupAnchorBody) []).1).trans
     (by decide),
   (((C1_link_indices_no_dedup (fun u => u) none []).2 {} [("href", gs "/x")]
       [.text (gs "w")] (gs "/x") (by decide) (by decide) (by decide)
       (by decide)).trans (by decide))⟩

/-! ## Claim C10 -/

/-- C10: extraction only emits well-formed text-bearing blocks: a
Heading, Paragraph or Quote always carries non-empty normalized text, a
Code block's right-trimmed text is non-empty, and a List block has at
least one item. -/
theorem C10_blocks_wellformed (resolve : GoStr → GoStr)
    (parsed : Option GNode) (raw : GoStr) :
    ((parseHTML resolve parsed raw).1).all okBlock = true := by
  match parsed with
  | none =>
    simp only [parseHTML]
    split
    · rename_i ht
      simp [okBlock_paragraph _ ht]
    · simp
  | some body =>
    have h := stInv_extractBlocksList resolve {}
      (elemChildren (childrenOf body)) ⟨linkInv_init, rfl⟩
    simpa [parseHTML] using h.2

/-! ## Claim C2 -/

theorem stripTagsAux_no_angle (inTag : Bool) (s : GoStr) :
    '<' ∉ stripTagsAux inTag s ∧ '>' ∉ stripTagsAux inTag s := by
  induction s generalizing inTag with
  | nil => simp [stripTagsAux]
  | cons c rest ih =>
    simp only [stripTagsAux]
    split
    · exact ih true
    · split
      · exact ih false
      · split
        · exact ih inTag
        · rename_i hlt hgt _
          refine ⟨?_, ?_⟩
          · simp only [List.mem_cons, not_or]
            exact ⟨fun e => hlt e.symm, (ih inTag).1⟩
          · simp only [List.mem_cons, not_or]
            exact ⟨fun e => hgt e.symm, (ih inTag).2⟩

theorem goTrimSpace_mem (s : GoStr) (c : Char) (hc : c ∈ goTrimSpace s) :
    c ∈ s := by
  simp only [goTrimSpace] at hc
  have h1 := (List.dropWhile_sublist goIsSpace).subset (List.mem_reverse.mp hc)
  exact (List.dropWhile_sublist goIsSpace).subset (List.mem_reverse.mp h1)

/-- C2 (amended): the tree-parse fallback never signals an error: it
yields an empty body when the tag-stripped remainder is empty, and
otherwise exactly one Paragraph carrying the tag-stripped, edge-trimmed
remainder (entities undecoded, interior whitespace preserved); the Link
sequence is always empty, and the emitted text contains no tag
delimiters. -/
theorem C2_fallback_no_error (resolve : GoStr → GoStr) (raw : GoStr) :
    parseHTML resolve none raw
      = (if stripTags raw = [] then ([], [])
         else ([{ type := .paragraph, text := stripTags raw }], []))
  ∧ '<' ∉ stripTags raw ∧ '>' ∉ stripTags raw := by
  refine ⟨?_, ?_, ?_⟩
  · by_cases hs : stripTags raw = [] <;> simp [parseHTML, hs]
  · exact fun hm => (stripTagsAux_no_angle false raw).1 (goTrimSpace_mem _ _ hm)
  · exact fun hm => (stripTagsAux_no_angle false raw).2 (goTrimSpace_mem _ _ hm)

/-- C2 witness: the amended fallback behaviour at concrete inputs. -/
theorem C2_witness :
    parseHTML (fun u => u) none (gs "a&amp;b")
      = ([{ type := .paragraph, text := gs "a&amp;b" }], [])
  ∧ parseHTML (fun u => u) none (gs "<x> <y>") = ([], []) :=
  ⟨((C2_fallback_no_error (fun u => u) (gs "a&amp;b")).1).trans (by decide),
   ((C2_fallback_no_error (fun u => u) (gs "<x> <y>")).1).trans (by decide)⟩

/-- C2 counterexample: the claim as stated is false — the fallback
paragraph is not entity-decoded and not whitespace-normalized, and an
empty remainder yields an empty body rather than a single Paragraph. -/
theorem C2_counterexample :
    ((parseHTML (fun u => u) none (gs "a&amp;b")).1
       ≠ [{ type := .paragraph,
            text := cleanText (stripTags (gs "a&amp;b")) }])
  ∧ ((parseHTML (fun u => u) none (gs "a  b")).1
       ≠ [{ type := .paragraph, text := cleanText (stripTags (gs "a  b")) }])
  ∧ ((parseHTML (fun u => u) none (gs "<x> <y>")).1
       ≠ [{ type := .paragraph, text := cleanText (stripTags (gs "<x> <y>")) }])
  := by decide

/-! ## Renderer model (`internal/renderer`)

lipgloss styling is external; it is modelled by concrete functions that
reproduce its structural contract: per-line SGR escapes, word-wrap at
the style width (on rune counts), space padding, and bordered boxes.
The chroma highlighter and the image rasterizer are collaborator
functions supplied as parameters.  Go's `strings.Repeat`, which panics
on a negative count, returns `Option`. -/

/-- The ESC character. -/
def escChar : Char := Char.ofNat 27

/-- One SGR-styled line. -/
def sgr (params : GoStr) (line : GoStr) : GoStr :=
  escChar :: '[' :: params ++ 'm' :: line ++ escChar :: '[' :: '0' :: 'm' :: []

/-- Apply a style line-by-line (lipgloss styles each line separately). -/
def styleLines (params : GoStr) (s : GoStr) : GoStr :=
  joinNL ((splitNL s).map (sgr params))

def headingP : GoStr := gs "1;38;5;205"
def h2P : GoStr := gs "1;38;5;212"
def h3P : GoStr := gs "1;38;5;218"
def linkIdxP : GoStr := gs "1;38;5;86"
def linkUrlP : GoStr := gs "38;5;86"
def refP : GoStr := gs "1;38;5;86"
def quoteP : GoStr := gs "3;38;5;243"
def quoteBarP : GoStr := gs "1;38;5;205"
def metaP : GoStr := gs "38;5;243"
def metaBoldP : GoStr := gs "1;38;5;243"
def bulletP : GoStr := gs "38;5;205"
def imageP : GoStr := gs "3;38;5;243"
def hrP : GoStr := gs "38;5;240"
def borderP : GoStr := gs "38;5;240"
def dividerP : GoStr := gs "38;5;238"
def cellP : GoStr := gs "38;5;252"

/-- Greedy word filling for the word-wrap contract. -/
def fillAux (w : Nat) : List GoStr → GoStr → List GoStr
  | [], cur => [cur]
  | word :: rest, cur =>
    if cur.isEmpty then fillAux w rest word
    else if cur.length + 1 + word.length ≤ w then
      fillAux w rest (cur ++ ' ' :: word)
    else cur :: fillAux w rest word

/-- Word-wrap one line to the given width. -/
def wrapLine (w : Nat) (s : GoStr) : List GoStr := fillAux w (goFields s) []

/-- Word-wrap text (existing newlines respected). -/
def wrapText (w : Nat) (s : GoStr) : List GoStr :=
  ((splitNL s).map (wrapLine w)).flatten

/-- Pad a line to the given width with spaces. -/
def padTo (w : Nat) (l : GoStr) : GoStr := l ++ List.replicate (w - l.length) ' '

/-- A lipgloss style with a Width: wrap, pad, optionally color each
line. -/
def styleBlockP (params : Option GoStr) (w : Nat) (s : GoStr) : GoStr :=
  joinNL ((wrapText w s).map (fun l =>
    match params with
    | some p => sgr p (padTo w l)
    | none => padTo w l))

/-- Go `strings.Repeat` on a single rune: panics (`none`) when the
count is negative. -/
def goRepeat (c : Char) (n : Int) : Option GoStr :=
  if n < 0 then none else some (List.replicate n.toNat c)

/-- The external collaborators of the renderer: the inline-image
rasterizer, the ASCII-art rasterizer (empty result = failure) and the
syntax highlighter. -/
structure Collab where
  inline : GoStr → Int → GoStr
  ascii : GoStr → Int → GoStr
  highlight : GoStr → GoStr → GoStr

/-- `renderer.Renderer`. -/
structure RState where
  width : Int
  inlineImages : Bool
  HeadingLines : List Nat := []
deriving DecidableEq, Repr

/-- `countWords` from the renderer source: whitespace-delimited tokens
of Paragraph/Quote/Heading text and List items; every other block kind
contributes zero. -/
def countWords (a : Article) : Nat :=
  a.content.foldl (fun acc b =>
    match b.type with
    | .paragraph => acc + (goFields b.text).length
    | .quote => acc + (goFields b.text).length
    | .heading => acc + (goFields b.text).length
    | .list => acc + (b.items.map (fun it => (goFields it).length)).sum
    | _ => acc) 0

/-- The reading-time computation inside `renderTitle`. -/
def readMins (a : Article) : Nat :=
  let r := (countWords a + 237) / 238
  if r < 1 then 1 else r

/-- `formatNumber`: decimal digits with comma grouping. -/
def formatNumber (n : Nat) : GoStr :=
  let s := natStr n
  if n < 1000 then s
  else (s.enum.map (fun p =>
    (if p.1 > 0 ∧ (s.length - p.1) % 3 = 0 then [','] else []) ++ [p.2])).flatten

/-- Go `strings.Join(xs, " · ")`. -/
def joinDot : List GoStr → GoStr
  | [] => []
  | [x] => x
  | x :: rest => x ++ gs " · " ++ joinDot rest

/-- The title's rounded-border box: Width(w) inside the border, with
Padding(1, 2). -/
def boxTitle (w : Int) (content : GoStr) : GoStr :=
  let wn := w.toNat
  let top := sgr borderP ('╭' :: List.replicate wn '─' ++ ['╮'])
  let bottom := sgr borderP ('╰' :: List.replicate wn '─' ++ ['╯'])
  let blank := sgr borderP ['│'] ++ List.replicate wn ' ' ++ sgr borderP ['│']
  let mid := (splitNL content).map (fun r =>
    sgr borderP ['│'] ++ gs "  " ++ r ++ gs "  " ++ sgr borderP ['│'])
  joinNL ([top, blank] ++ mid ++ [blank, bottom])

/-- `renderTitle`. -/
def renderTitle (st : RState) (a : Article) : GoStr :=
  let contentWidth := (st.width - 4).toNat
  let title := styleBlockP (some headingP) contentWidth a.title
  let parts := (if a.author ≠ [] then [gs "by " ++ a.author] else [])
            ++ (if a.siteName ≠ [] then [a.siteName] else [])
  let meta := if parts.length > 0 then
      styleBlockP (some metaP) contentWidth (joinDot parts) else []
  let readLine := styleBlockP (some metaP) contentWidth
      (natStr (readMins a) ++ gs " min read · " ++
       formatNumber (countWords a) ++ gs " words")
  let content := title ++ (if meta ≠ [] then '\n' :: meta else [])
                 ++ '\n' :: readLine
  boxTitle st.width content

/-- The per-level color and arrow of `renderHeading`. -/
def headingStyle (lv : Nat) : GoStr × GoStr :=
  match lv with
  | 1 => (headingP, gs "▸ ")
  | 2 => (h2P, gs "▸ ")
  | 3 => (h3P, gs "  ▹ ")
  | _ => (h3P, gs "    ▹ ")

/-- `renderHeading`: level-scaled arrow prefix and color; the block
begins and ends with a newline. -/
def renderHeading (b : ContentBlock) : GoStr :=
  let pc := headingStyle b.level
  '\n' :: styleLines pc.1 (pc.2 ++ b.text) ++ ['\n']

/-- `colorizeLinks` scanner (fuel-driven; one rune consumed per step at
minimum). -/
def colorizeLinksAux : Nat → GoStr → GoStr
  | 0, s => s
  | _ + 1, [] => []
  | fuel + 1, c :: rest =>
    if c = '[' then
      let ds := rest.takeWhile (fun d => 48 ≤ d.toNat && d.toNat ≤ 57)
      match ds, rest.drop ds.length with
      | _ :: _, ']' :: r2 =>
        sgr refP ('[' :: ds ++ [']']) ++ colorizeLinksAux fuel r2
      | _, _ => c :: colorizeLinksAux fuel rest
    else c :: colorizeLinksAux fuel rest

/-- `colorizeLinks`: style pure-digit `[N]` runs. -/
def colorizeLinks (text : GoStr) : GoStr := colorizeLinksAux text.length text

/-- `renderParagraph`: Width(width-2) with PaddingLeft(1). -/
def renderParagraph (st : RState) (b : ContentBlock) : GoStr :=
  let w := (st.width - 3).toNat
  joinNL ((wrapText w (colorizeLinks b.text)).map (fun l => ' ' :: padTo w l))
    ++ ['\n']

/-- The code block's box: Width(width-6), Padding(0, 1), MarginLeft(2). -/
def boxCode (w : Int) (content : GoStr) : GoStr :=
  let bw := (w - 6).toNat
  let innerW := (w - 8).toNat
  let top := gs "  " ++ sgr borderP ('╭' :: List.replicate bw '─' ++ ['╮'])
  let bottom := gs "  " ++ sgr borderP ('╰' :: List.replicate bw '─' ++ ['╯'])
  let mid := (splitNL content).map (fun r =>
    gs "  " ++ sgr borderP ['│'] ++ ' ' :: padTo innerW r ++ [' ']
      ++ sgr borderP ['│'])
  joinNL ([top] ++ mid ++ [bottom])

/-- `renderCode`: highlighter output in a bordered box. -/
def renderCode (o : Collab) (st : RState) (b : ContentBlock) : GoStr :=
  boxCode st.width (o.highlight b.text b.language) ++ ['\n']

/-- `renderList`. -/
def renderList (st : RState) (b : ContentBlock) : GoStr :=
  (b.items.enum.map (fun p =>
    let pfx := if b.ordered then gs "  " ++ natStr (p.1 + 1) ++ gs ". "
               else gs "  " ++ sgr bulletP ['•'] ++ [' ']
    pfx ++ styleBlockP none ((st.width - 6).toNat) (colorizeLinks p.2)
        ++ ['\n'])).flatten

/-- `renderQuote`: italic text at Width(width-8)/PaddingLeft(1), each
line prefixed by a colored bar. -/
def renderQuote (st : RState) (b : ContentBlock) : GoStr :=
  let w := (st.width - 9).toNat
  let rendered := joinNL ((wrapText w (colorizeLinks b.text)).map (fun l =>
    sgr quoteP (' ' :: padTo w l)))
  ((splitNL rendered).map (fun l =>
    gs "  " ++ sgr quoteBarP ['┃'] ++ [' '] ++ l ++ ['\n'])).flatten

/-- The italic caption under a rasterized image. -/
def imageCaption (b : ContentBlock) : GoStr :=
  if b.alt ≠ [] then styleLines imageP (gs "  " ++ b.alt) ++ ['\n'] else []

/-- The `"[IMAGE: <alt or 'image'>]"` placeholder. -/
def imagePlaceholder (b : ContentBlock) : GoStr :=
  let alt := if b.alt = [] then gs "image" else b.alt
  styleLines imageP (gs "  [IMAGE: " ++ alt ++ [']']) ++ ['\n']

/-- The inline-raster rendering of an image block. -/
def imageInlineVariant (o : Collab) (st : RState) (b : ContentBlock) : GoStr :=
  gs "  " ++ o.inline b.url (st.width - 4) ++ ['\n'] ++ imageCaption b

/-- The ASCII-art rendering of an image block. -/
def imageAsciiVariant (o : Collab) (st : RState) (b : ContentBlock) : GoStr :=
  o.ascii b.url (st.width - 4) ++ imageCaption b

/-- `renderImage`: inline raster, else ASCII art, else placeholder. -/
def renderImage (o : Collab) (st : RState) (b : ContentBlock) : GoStr :=
  if b.url ≠ [] then
    if st.inlineImages = true ∧ o.inline b.url (st.width - 4) ≠ [] then
      imageInlineVariant o st b
    else if o.ascii b.url (st.width - 4) ≠ [] then
      imageAsciiVariant o st b
    else imagePlaceholder b
  else imagePlaceholder b

/-- `renderHR`. -/
def renderHR (st : RState) : Option GoStr :=
  (goRepeat '━' (st.width - 4)).map (fun r =>
    styleLines hrP (gs "  " ++ r) ++ ['\n'])

/-- The divider line written before headings and section trailers. -/
def dividerLine (w : Int) : Option GoStr :=
  (goRepeat '─' (w - 4)).map (fun r => sgr dividerP (gs "  " ++ r))

/-- `fmtCell`: truncate/pad one table cell.  Lengths are Go byte
lengths; the ellipsis occupies three bytes, so a truncated cell is
longer than `width` and the final padding `strings.Repeat` receives a
negative count — a panic, modelled as `none`. -/
def fmtCell (text : GoStr) (width : Int) : Option GoStr :=
  let t := if (goLen text : Int) > width then
             if width > 1 then byteTake (width - 1).toNat text ++ ['…']
             else byteTake width.toNat text
           else text
  (goRepeat ' ' (width - (goLen t : Int))).map (fun pad => t ++ pad)

/-- One rendered table row. -/
def tableRow (hdr : Bool) (colWidths : List Int) (row : List GoStr) :
    Option GoStr :=
  (colWidths.enum.mapM (fun p =>
    (fmtCell (row.getD p.1 []) p.2).map (fun f =>
      ' ' :: sgr (if hdr then headingP else cellP) f ++ [' ']
        ++ sgr borderP ['│']))).map
  (fun cs => sgr borderP ['│'] ++ cs.flatten)

/-- A horizontal table border. -/
def tableHLine (colWidths : List Int) (numCols : Nat)
    (l m r fill : Char) : GoStr :=
  sgr borderP (l :: (colWidths.enum.map (fun p =>
    List.replicate (p.2 + 2).toNat fill ++
      (if p.1 < numCols - 1 then [m] else []))).flatten ++ [r])

/-- `renderTable`. -/
def renderTable (st : RState) (b : ContentBlock) : Option GoStr :=
  if b.rows = [] then some []
  else
    let numCols := b.rows.foldl (fun m row => max m row.length) 0
    if numCols = 0 then some []
    else
      let colWidths0 : List Nat := (List.range numCols).map (fun j =>
        b.rows.foldl (fun m row => max m (goLen (row.getD j []))) 0)
      let maxTableWidth : Int := st.width - 6
      let totalWidth : Int :=
        (numCols : Int) + 1 +
          (colWidths0.foldl (fun a w => a + (w : Int) + 2) 0)
      let colWidths : List Int :=
        if totalWidth > maxTableWidth then
          let avail0 : Int := maxTableWidth - numCols - 1 - numCols * 2
          let avail : Int :=
            if avail0 < (numCols : Int) then (numCols : Int) else avail0
          let total : Int := colWidths0.foldl (fun a w => a + (w : Int)) 0
          if total > 0 then
            colWidths0.map (fun w =>
              let v : Int := (w : Int) * avail / total
              if v < 1 then 1 else v)
          else colWidths0.map (fun w => (w : Int))
        else colWidths0.map (fun w => (w : Int))
      do
        let body ← b.rows.enum.mapM (fun p => do
          let r ← tableRow (b.header && p.1 == 0) colWidths p.2
          pure ((gs "  " ++ r ++ ['\n']) ++
            (if b.header && p.1 == 0 then
              gs "  " ++ tableHLine colWidths numCols '├' '┼' '┤' '─' ++ ['\n']
             else [])))
        pure (gs "  " ++ tableHLine colWidths numCols '┌' '┬' '┐' '─' ++ ['\n']
          ++ body.flatten
          ++ gs "  " ++ tableHLine colWidths numCols '└' '┴' '┘' '─' ++ ['\n'])

/-- `Renderer.RenderBlock`. -/
def renderBlock (o : Collab) (st : RState) (b : ContentBlock) : Option GoStr :=
  match b.type with
  | .heading => some (renderHeading b)
  | .paragraph => some (renderParagraph st b)
  | .code => some (renderCode o st b)
  | .list => some (renderList st b)
  | .quote => some (renderQuote st b)
  | .image => some (renderImage o st b)
  | .table => renderTable st b
  | .hr => renderHR st

/-- The body loop of `RenderArticle`: skip images, divider before every
heading except at index 0, record the running line count for each
heading, then append each non-empty block rendering. -/
def renderBodyAux (o : Collab) (st : RState) :
    List (Nat × ContentBlock) → GoStr → List Nat → Option (GoStr × List Nat)
  | [], b, hl => some (b, hl)
  | (i, blk) :: rest, b, hl =>
    if blk.type = .image then renderBodyAux o st rest b hl
    else
      match (if blk.type = .heading ∧ i > 0 then
               (dividerLine st.width).map (fun d => b ++ d ++ ['\n'])
             else some b) with
      | none => none
      | some b1 =>
        let hl1 := if blk.type = .heading then hl ++ [countNL b1] else hl
        match renderBlock o st blk with
        | none => none
        | some r =>
          renderBodyAux o st rest (if r ≠ [] then b1 ++ r ++ ['\n'] else b1) hl1

/-- The trailing Images section content: every image block with a
non-empty URL, rendered in document order. -/
def imagesSection (o : Collab) (st : RState) (content : List ContentBlock) :
    GoStr :=
  (content.map (fun blk =>
    if blk.type = .image ∧ blk.url ≠ [] then
      let r := renderImage o st blk
      if r ≠ [] then r else []
    else [])).flatten

/-- The OSC 8 clickable-hyperlink wrapper. -/
def osc8 (url styled : GoStr) : GoStr :=
  escChar :: ']' :: gs "8;;" ++ url ++ escChar :: '\\' :: styled
    ++ escChar :: ']' :: gs "8;;" ++ escChar :: '\\' :: []

/-- `renderLinks`: the trailing Links section. -/
def renderLinks (st : RState) (links : List Link) : Option GoStr :=
  (dividerLine st.width).map (fun d =>
    '\n' :: d ++ ['\n'] ++ styleLines metaBoldP (gs "  Links") ++ gs "\n\n" ++
    (links.map (fun l =>
      sgr linkIdxP (gs "  [" ++ natStr l.index ++ [']']) ++ [' '] ++
      sgr metaP l.text ++ ['\n'] ++ gs "      " ++
      osc8 l.url (sgr linkUrlP l.url) ++ ['\n'])).flatten)

/-- `Renderer.RenderArticle`: title box, body (images deferred), the
trailing Images section, then the Links section; the final state
carries the recorded heading line offsets. -/
def renderArticle (o : Collab) (st : RState) (a : Article) :
    Option (RState × GoStr) := do
  let b0 := renderTitle st a ++ gs "\n\n"
  -- the receiver's HeadingLines is reset before the body loop
  let st1 : RState := { st with HeadingLines := [] }
  let r ← renderBodyAux o st1 a.content.enum b0 []
  let imgs := imagesSection o st1 a.content
  let b2 ←
    if imgs ≠ [] then do
      let d ← dividerLine st1.width
      pure (r.1 ++ '\n' :: d ++ ['\n'] ++
        styleLines metaBoldP (gs "  Images") ++ gs "\n\n" ++ imgs)
    else pure r.1
  let b3 ←
    if a.links ≠ [] then do
      let l ← renderLinks st1 a.links
      pure (b2 ++ l)
    else pure b2
  pure ({ st1 with HeadingLines := r.2 }, b3)

/-- A collaborator whose rasterizers always fail and whose highlighter
is the identity. -/
def collab0 : Collab :=
  { inline := fun _ _ => [], ascii := fun _ _ => [], highlight := fun c _ => c }

/-- A renderer at the default width 90 without inline-image support. -/
def rst90 : RState := { width := 90, inlineImages := false }

/-! ## Claim C3 -/

/-- C3: `fmtCell` truncation is broken — appending the three-byte
ellipsis after `width - 1` bytes makes the cell longer than `width`,
and the final padding `strings.Repeat(" ", width - len(text))` receives
a negative count, which panics; a table forcing truncation therefore
crashes rendering, while a table with short rows renders with missing
cells as empty padded cells. -/
theorem C3_table_truncation_panics :
    renderTable { width := 20, inlineImages := false }
      { type := .table, rows := [[gs "aaaaaaaaaaaaaaaaaaaa"]] } = none
  ∧ fmtCell (gs "aaaaaaaaaaaaaaaaaaaa") 10 = none
  ∧ (renderTable rst90
      { type := .table, rows := [[gs "a", gs "b"], [gs "c"]] }).isSome = true
  := by decide

/-! ## Claim C5 -/

/-- Modelled from the claim's words (spec-side definition, for the
refinement comparison in C5): word count sums whitespace-delimited
tokens of every Heading, Paragraph and Quote block and every List item,
and nothing else. -/
def specWordCount (a : Article) : Nat :=
  (a.content.map (fun b =>
    if b.type = .heading ∨ b.type = .paragraph ∨ b.type = .quote then
      (goFields b.text).length
    else if b.type = .list then
      (b.items.map (fun it => (goFields it).length)).sum
    else 0)).sum

theorem countWords_eq_spec (a : Article) : countWords a = specWordCount a := by
  have h : ∀ (l : List ContentBlock) (acc : Nat),
      l.foldl (fun acc b =>
        match b.type with
        | .paragraph => acc + (goFields b.text).length
        | .quote => acc + (goFields b.text).length
        | .heading => acc + (goFields b.text).length
        | .list => acc + (b.items.map (fun it => (goFields it).length)).sum
        | _ => acc) acc
      = acc + (l.map (fun b =>
          if b.type = .heading ∨ b.type = .paragraph ∨ b.type = .quote then
            (goFields b.text).length
          else if b.type = .list then
            (b.items.map (fun it => (goFields it).length)).sum
          else 0)).sum := by
    intro l
    induction l with
    | nil => simp
    | cons b rest ih =>
      intro acc
      simp only [List.foldl_cons, List.map_cons, List.sum_cons, ih]
      cases htype : b.type <;> simp [htype] <;> omega
  simpa [countWords, specWordCount] using h a.content 0

/-- C5: the title block's reading time is `max(1, ceil(wordCount/238))`
minutes, where the word count ranges over Heading, Paragraph, Quote and
List-item text only (Code and Table contribute zero). -/
theorem C5_reading_time (a : Article) :
    readMins a = max 1 (countWords a ⌈/⌉ 238)
  ∧ countWords a = specWordCount a := by
  refine ⟨?_, countWords_eq_spec a⟩
  rw [Nat.ceilDiv_eq_add_pred_div]
  simp only [readMins, Nat.max_def]
  split_ifs <;> omega

/-! ## Claim C4 -/

/-- C4: render is deterministic — the output text and the recorded
heading-offset list are a function of the document, the width, the
capability flag and the collaborator functions alone; the renderer's
only mutable state (`HeadingLines`) is reset on entry, so repeated
invocations with identical arguments give byte-identical results. -/
theorem C4_render_deterministic (o : Collab) (w : Int) (ii : Bool)
    (hl1 hl2 : List Nat) (a : Article) :
    renderArticle o { width := w, inlineImages := ii, HeadingLines := hl1 } a
      = renderArticle o { width := w, inlineImages := ii, HeadingLines := hl2 } a := by
  rfl

/-! ## Claim C7 -/

theorem renderImage_ne_nil (o : Collab) (st : RState) (b : ContentBlock) :
    renderImage o st b ≠ [] := by
  simp only [renderImage]
  split
  · split
    · simp [imageInlineVariant, gs]
    · split
      · rename_i ha
        simp only [imageAsciiVariant]
        intro hc
        exact ha (List.append_eq_nil.mp hc).1
      · simp [imagePlaceholder]
  · simp [imagePlaceholder]

/-- Replace the payload of every image block in an indexed block list. -/
def mapImageBlocks (g : ContentBlock → ContentBlock)
    (l : List (Nat × ContentBlock)) : List (Nat × ContentBlock) :=
  l.map (fun p => if p.2.type = .image then (p.1, g p.2) else p)

theorem renderBodyAux_image_payload_free (o : Collab) (st : RState)
    (g : ContentBlock → ContentBlock) (hg : ∀ blk, (g blk).type = .image) :
    ∀ (l : List (Nat × ContentBlock)) (b : GoStr) (hl : List Nat),
      renderBodyAux o st (mapImageBlocks g l) b hl
        = renderBodyAux o st l b hl := by
  intro l
  induction l with
  | nil => intro b hl; rfl
  | cons p rest ih =>
    intro b hl
    obtain ⟨i, blk⟩ := p
    simp only [mapImageBlocks, List.map_cons]
    by_cases himg : blk.type = .image
    · rw [if_pos himg]
      simp only [renderBodyAux]
      rw [if_pos (hg blk), if_pos himg]
      exact ih b hl
    · rw [if_neg himg]
      simp only [renderBodyAux]
      rw [if_neg himg, if_neg himg]
      cases hdiv : (if blk.type = .heading ∧ i > 0 then
          (dividerLine st.width).map (fun d => b ++ d ++ ['\n'])
        else some b) with
      | none => rfl
      | some b1 =>
        dsimp only
        cases hrb : renderBlock o st blk with
        | none => rfl
        | some r => dsimp only; exact ih _ _

theorem imagesSection_eq (o : Collab) (st : RState)
    (content : List ContentBlock) :
    imagesSection o st content
      = ((content.filter (fun blk =>
            blk.type = .image ∧ blk.url ≠ [])).map (renderImage o st)).flatten := by
  induction content with
  | nil => rfl
  | cons blk rest ih =>
    by_cases hc : blk.type = .image ∧ blk.url ≠ []
    · simp only [imagesSection, List.map_cons, List.flatten_cons] at ih ⊢
      rw [if_pos hc]
      rw [if_pos (renderImage_ne_nil o st blk)]
      rw [List.filter_cons_of_pos (by simpa using hc)]
      simp only [List.map_cons, List.flatten_cons]
      rw [ih]
    · simp only [imagesSection, List.map_cons, List.flatten_cons] at ih ⊢
      rw [if_neg hc, List.filter_cons_of_neg (by simpa using hc)]
      rw [← ih]
      simp

/-- C7 (amended): image blocks never render in the main body stream —
the body output is independent of image payloads; the trailing Images
section is exactly the image blocks with non-empty URL rendered in
document order; and for each such block exactly one of the three
variants (inline raster / ASCII art / placeholder) is emitted.  Image
blocks with an empty URL are dropped entirely. -/
theorem C7_images_trailing (o : Collab) (st : RState) :
    (∀ b : ContentBlock, b.url ≠ [] →
      ((st.inlineImages = true ∧ o.inline b.url (st.width - 4) ≠ [])
         ∧ renderImage o st b = imageInlineVariant o st b)
      ∨ (¬(st.inlineImages = true ∧ o.inline b.url (st.width - 4) ≠ [])
         ∧ o.ascii b.url (st.width - 4) ≠ []
         ∧ renderImage o st b = imageAsciiVariant o st b)
      ∨ (¬(st.inlineImages = true ∧ o.inline b.url (st.width - 4) ≠ [])
         ∧ ¬o.ascii b.url (st.width - 4) ≠ []
         ∧ renderImage o st b = imagePlaceholder b))
  ∧ (∀ (g : ContentBlock → ContentBlock), (∀ blk, (g blk).type = .image) →
      ∀ l b hl, renderBodyAux o st (mapImageBlocks g l) b hl
        = renderBodyAux o st l b hl)
  ∧ (∀ content, imagesSection o st content
      = ((content.filter (fun blk =>
           blk.type = .image ∧ blk.url ≠ [])).map (renderImage o st)).flatten) := by
  refine ⟨?_, renderBodyAux_image_payload_free o st, imagesSection_eq o st⟩
  intro b hb
  simp only [renderImage]
  rw [if_pos hb]
  by_cases h1 : st.inlineImages = true ∧ o.inline b.url (st.width - 4) ≠ []
  · exact Or.inl ⟨h1, by rw [if_pos h1]⟩
  · rw [if_neg h1]
    by_cases h2 : o.ascii b.url (st.width - 4) ≠ []
    · exact Or.inr (Or.inl ⟨h1, h2, by rw [if_pos h2]⟩)
    · exact Or.inr (Or.inr ⟨h1, h2, by rw [if_neg h2]⟩)

/-- An article whose only content is an image block with no URL. -/
def artImgEmptyURL : Article :=
  { title := gs "T", content := [{ type := .image, alt := gs "x", url := [] }] }

/-- The same article with the image block removed. -/
def artNoImg : Article := { title := gs "T", content := [] }

/-- C7 counterexample: an Image block with no URL is not rendered as a
placeholder — it is dropped: the output is byte-identical to the
render of the article without the block, and contains no
`"[IMAGE:"` placeholder at all. -/
theorem C7_counterexample :
    renderArticle collab0 rst90 artImgEmptyURL
      = renderArticle collab0 rst90 artNoImg
  ∧ (renderArticle collab0 rst90 artImgEmptyURL).map
      (fun p => goContains p.2 (gs "[IMAGE:")) = some false := by decide

/-- C7 witness: the amended theorem applied at a concrete block and a
concrete article. -/
theorem C7_witness :
    renderImage collab0 rst90 { type := .image, alt := gs "x", url := gs "u" }
      = imagePlaceholder { type := .image, alt := gs "x", url := gs "u" }
  ∧ imagesSection collab0 rst90 artImgEmptyURL.content = [] := by
  constructor
  · have h := (C7_images_trailing collab0 rst90).1
      { type := .image, alt := gs "x", url := gs "u" } (by decide)
    rcases h with ⟨⟨hii, _⟩, _⟩ | ⟨_, h2, _⟩ | ⟨_, _, h3⟩
    · exact absurd hii (by decide)
    · exact absurd h2 (by decide)
    · exact h3
  · exact ((C7_images_trailing collab0 rst90).2.2 artImgEmptyURL.content).trans
      (by decide)

/-! ## Claim C6 -/

/-- The single styled line a heading contributes to the output. -/
def headingLineText (b : ContentBlock) : GoStr :=
  sgr (headingStyle b.level).1 ((headingStyle b.level).2 ++ b.text)

theorem splitNLAux_no_nl (s : GoStr) :
    ∀ acc, '\n' ∉ s → splitNLAux s acc = [acc.reverse ++ s] := by
  induction s with
  | nil => intro acc _; simp [splitNLAux]
  | cons c rest ih =>
    intro acc hmem
    have hc : ¬c = '\n' := by
      intro e; exact hmem (by simp [e])
    simp only [splitNLAux]
    rw [if_neg hc, ih _ (fun hm => hmem (List.mem_cons_of_mem _ hm))]
    simp

theorem headingStyle_no_nl (lv : Nat) :
    '\n' ∉ (headingStyle lv).1 ∧ '\n' ∉ (headingStyle lv).2 := by
  rcases lv with _ | _ | _ | _ | lv
  · decide
  · decide
  · decide
  · decide
  · show '\n' ∉ h3P ∧ '\n' ∉ gs "    ▹ "
    decide

theorem sgr_no_nl (p line : GoStr) (hp : '\n' ∉ p) (hl : '\n' ∉ line) :
    '\n' ∉ sgr p line := by
  intro hmem
  simp only [sgr, List.mem_cons, List.mem_append, List.mem_singleton,
    List.not_mem_nil] at hmem
  have h1 : ('\n' : Char) ≠ escChar := by decide
  have h2 : ('\n' : Char) ≠ '[' := by decide
  have h3 : ('\n' : Char) ≠ 'm' := by decide
  have h4 : ('\n' : Char) ≠ '0' := by decide
  tauto

theorem renderHeading_decomp (b : ContentBlock) (hb : '\n' ∉ b.text) :
    renderHeading b = '\n' :: headingLineText b ++ ['\n']
  ∧ '\n' ∉ headingLineText b := by
  have hsty := headingStyle_no_nl b.level
  have harg : '\n' ∉ (headingStyle b.level).2 ++ b.text := by
    intro hm
    rcases List.mem_append.mp hm with h | h
    · exact hsty.2 h
    · exact hb h
  constructor
  · simp only [renderHeading, headingLineText, styleLines, splitNL]
    rw [splitNLAux_no_nl _ _ harg]
    simp [joinNL]
  · exact sgr_no_nl _ _ hsty.1 harg

/-- The heading-offset soundness predicate: each recorded offset counts
the newlines preceding the blank line that starts the corresponding
heading's rendered block, i.e. the styled heading line itself sits one
line below the offset. -/
def OffsetsOk (buf : GoStr) (hl : List Nat) (hs : List ContentBlock) : Prop :=
  hl.length = hs.length ∧
  ∀ (i : Nat) (blk : ContentBlock) (off : Nat),
    hs[i]? = some blk → hl[i]? = some off →
    ∃ A B, buf = A ++ '\n' :: headingLineText blk ++ '\n' :: B
      ∧ countNL A = off

theorem OffsetsOk_append (buf : GoStr) (hl : List Nat)
    (hs : List ContentBlock) (t : GoStr) (h : OffsetsOk buf hl hs) :
    OffsetsOk (buf ++ t) hl hs := by
  refine ⟨h.1, ?_⟩
  intro i blk off h1 h2
  obtain ⟨A, B, he, hc⟩ := h.2 i blk off h1 h2
  exact ⟨A, B ++ t, by rw [he]; simp, hc⟩

theorem OffsetsOk_push (buf : GoStr) (hl : List Nat)
    (hs : List ContentBlock) (blk : ContentBlock) (tail : GoStr)
    (h : OffsetsOk buf hl hs) :
    OffsetsOk (buf ++ '\n' :: headingLineText blk ++ '\n' :: tail)
      (hl ++ [countNL buf]) (hs ++ [blk]) := by
  refine ⟨by simp [h.1], ?_⟩
  intro i blk2 off h1 h2
  have hlen := h.1
  by_cases hi : i < hs.length
  · rw [List.getElem?_append_left hi] at h1
    rw [show (hl ++ [countNL buf])[i]? = hl[i]? from
      List.getElem?_append_left (by omega)] at h2
    obtain ⟨A, B, he, hc⟩ := h.2 i blk2 off h1 h2
    exact ⟨A, B ++ '\n' :: headingLineText blk ++ '\n' :: tail,
      by rw [he]; simp, hc⟩
  · by_cases hieq : i = hs.length
    · subst hieq
      rw [List.getElem?_concat_length] at h1
      rw [← hlen, List.getElem?_concat_length] at h2
      cases h1
      cases h2
      exact ⟨buf, tail, rfl, rfl⟩
    · have hnone : (hs ++ [blk])[i]? = none :=
        List.getElem?_eq_none (by simp; omega)
      rw [hnone] at h1
      cases h1

theorem renderBodyAux_offsets (o : Collab) (st : RState) :
    ∀ (l : List (Nat × ContentBlock)) (buf : GoStr) (hl : List Nat)
      (hs : List ContentBlock) (out : GoStr × List Nat),
    (∀ p ∈ l, p.2.type = .heading → '\n' ∉ p.2.text) →
    renderBodyAux o st l buf hl = some out →
    OffsetsOk buf hl hs →
    OffsetsOk out.1 out.2
      (hs ++ (l.map Prod.snd).filter (fun blk => blk.type = .heading)) := by
  intro l
  induction l with
  | nil =>
    intro buf hl hs out hnl hr hok
    simp only [renderBodyAux, Option.some_inj] at hr
    subst hr
    simpa using hok
  | cons p rest ih =>
    intro buf hl hs out hnl hr hok
    obtain ⟨i, blk⟩ := p
    have hnlrest : ∀ q ∈ rest, q.2.type = .heading → '\n' ∉ q.2.text :=
      fun q hq => hnl q (List.mem_cons_of_mem _ hq)
    simp only [renderBodyAux] at hr
    by_cases himg : blk.type = .image
    · rw [if_pos himg] at hr
      have hres := ih buf hl hs out hnlrest hr hok
      rw [List.map_cons, List.filter_cons_of_neg (by simp [himg])]
      exact hres
    · rw [if_neg himg] at hr
      cases hdivOpt : (if blk.type = .heading ∧ i > 0 then
          (dividerLine st.width).map (fun d => buf ++ d ++ ['\n'])
        else some buf) with
      | none => rw [hdivOpt] at hr; exact absurd hr (by simp)
      | some b1 =>
        rw [hdivOpt] at hr
        dsimp only at hr
        have hok1 : OffsetsOk b1 hl hs := by
          by_cases hcond : blk.type = .heading ∧ i > 0
          · rw [if_pos hcond] at hdivOpt
            obtain ⟨d, _, hd2⟩ := Option.map_eq_some'.mp hdivOpt
            rw [← hd2, List.append_assoc]
            exact OffsetsOk_append _ _ _ _ hok
          · rw [if_neg hcond] at hdivOpt
            cases hdivOpt
            exact hok
        cases hrb : renderBlock o st blk with
        | none => rw [hrb] at hr; exact absurd hr (by simp)
        | some r =>
          rw [hrb] at hr
          dsimp only at hr
          by_cases hh : blk.type = .heading
          · have hrh : r = renderHeading blk := by
              have := hrb
              simp only [renderBlock, hh] at this
              exact (Option.some_inj.mp this).symm
            have hdecomp := renderHeading_decomp blk
              (hnl ⟨i, blk⟩ (List.mem_cons_self _ _) hh)
            have hrne : ¬r = [] := by
              rw [hrh, hdecomp.1]
              simp
            rw [if_pos hh, if_pos hrne] at hr
            have hok2 : OffsetsOk (b1 ++ r ++ ['\n'])
                (hl ++ [countNL b1]) (hs ++ [blk]) := by
              have hshape : b1 ++ r ++ ['\n']
                  = b1 ++ '\n' :: headingLineText blk ++ '\n' :: ['\n'] := by
                rw [hrh, hdecomp.1]
                simp
              rw [hshape]
              exact OffsetsOk_push b1 hl hs blk ['\n'] hok1
            have hres := ih _ _ _ _ hnlrest hr hok2
            rw [List.map_cons, List.filter_cons_of_pos (by simp [hh])]
            simpa using hres
          · rw [if_neg hh] at hr
            have hok2 : OffsetsOk (if ¬r = [] then b1 ++ r ++ ['\n'] else b1)
                hl hs := by
              split
              · rw [List.append_assoc]
                exact OffsetsOk_append _ _ _ _ hok1
              · exact hok1
            have hres := ih _ _ _ _ hnlrest hr hok2
            rw [List.map_cons, List.filter_cons_of_neg (by simp [hh])]
            exact hres

/-- Any successful `renderArticle` output is the body-loop result
extended by the trailing sections, and the final heading offsets are
exactly the loop's recorded offsets. -/
theorem renderArticle_shape (o : Collab) (st : RState) (a : Article)
    (out : RState × GoStr) (hr : renderArticle o st a = some out) :
    ∃ r T, renderBodyAux o { st with HeadingLines := [] } a.content.enum
        (renderTitle st a ++ gs "\n\n") [] = some r
      ∧ out.1.HeadingLines = r.2 ∧ out.2 = r.1 ++ T := by
  simp only [renderArticle, bind] at hr
  cases hbody : renderBodyAux o { st with HeadingLines := [] } a.content.enum
      (renderTitle st a ++ gs "\n\n") [] with
  | none => rw [hbody] at hr; exact absurd hr (by simp)
  | some r =>
    rw [hbody] at hr
    simp only [Option.some_bind] at hr
    by_cases hcImg : imagesSection o { st with HeadingLines := [] } a.content ≠ []
    · rw [if_pos hcImg] at hr
      cases hdiv : dividerLine st.width with
      | none =>
        rw [hdiv] at hr
        exact absurd hr (by simp)
      | some d =>
        rw [hdiv] at hr
        simp only [bind, Option.some_bind, pure] at hr
        by_cases hcL : a.links ≠ []
        · rw [if_pos hcL] at hr
          cases hlk : renderLinks { st with HeadingLines := [] } a.links with
          | none =>
            rw [hlk] at hr
            exact absurd hr (by simp)
          | some lk =>
            rw [hlk] at hr
            simp only [bind, Option.some_bind, Option.some_inj, pure] at hr
            refine ⟨r, ('\n' :: d ++ ['\n'] ++ styleLines metaBoldP (gs "  Images")
                ++ gs "\n\n"
                ++ imagesSection o { st with HeadingLines := [] } a.content)
                ++ lk, rfl, ?_, ?_⟩
            · rw [← hr]
            · rw [← hr]
              simp [List.append_assoc]
        · rw [if_neg hcL] at hr
          simp only [pure, Option.some_bind, Option.some_inj] at hr
          refine ⟨r, '\n' :: d ++ ['\n'] ++ styleLines metaBoldP (gs "  Images")
              ++ gs "\n\n"
              ++ imagesSection o { st with HeadingLines := [] } a.content,
              rfl, ?_, ?_⟩
          · rw [← hr]
          · rw [← hr]
            dsimp only
            simp only [List.cons_append, List.append_assoc]
    · rw [if_neg hcImg] at hr
      simp only [pure, Option.some_bind] at hr
      by_cases hcL : a.links ≠ []
      · rw [if_pos hcL] at hr
        cases hlk : renderLinks { st with HeadingLines := [] } a.links with
        | none =>
          rw [hlk] at hr
          exact absurd hr (by simp)
        | some lk =>
          rw [hlk] at hr
          simp only [bind, Option.some_bind, Option.some_inj, pure] at hr
          exact ⟨r, lk, rfl, by rw [← hr], by rw [← hr]⟩
      · rw [if_neg hcL] at hr
        simp only [pure, Option.some_bind, Option.some_inj] at hr
        exact ⟨r, [], rfl, by rw [← hr], by rw [← hr]; simp⟩

/-- C6 (amended): render records exactly one offset per Heading block,
in document order; each offset is taken after the heading's divider is
written (not before it) and equals the output's newline count at that
moment, so in the final output the offset is the index of the blank
line that begins the heading's rendered block and the styled heading
text itself sits on line offset + 1. -/
theorem C6_heading_offsets (o : Collab) (st : RState) (a : Article)
    (out : RState × GoStr)
    (hnl : ∀ b ∈ a.content, b.type = .heading → '\n' ∉ b.text)
    (hr : renderArticle o st a = some out) :
    out.1.HeadingLines.length
      = (a.content.filter (fun b => b.type = .heading)).length
  ∧ ∀ (i : Nat) (blk : ContentBlock) (off : Nat),
      (a.content.filter (fun b => b.type = .heading))[i]? = some blk →
      out.1.HeadingLines[i]? = some off →
      ∃ A B, out.2 = A ++ '\n' :: headingLineText blk ++ '\n' :: B
        ∧ countNL A = off := by
  obtain ⟨r, T, hbody, hhl, hout⟩ := renderArticle_shape o st a out hr
  have hnl2 : ∀ p ∈ a.content.enum, p.2.type = .heading → '\n' ∉ p.2.text := by
    intro p hp
    have hmem : p.2 ∈ a.content := by
      rw [← List.enum_map_snd a.content]
      exact List.mem_map_of_mem Prod.snd hp
    exact hnl p.2 hmem
  have hbase : OffsetsOk (renderTitle st a ++ gs "\n\n") [] [] := by
    refine ⟨rfl, ?_⟩
    intro i blk off h1 h2
    simp at h1
  have hmain := renderBodyAux_offsets o { st with HeadingLines := [] }
    a.content.enum _ _ [] r hnl2 hbody hbase
  rw [List.enum_map_snd] at hmain
  simp only [List.nil_append] at hmain
  have hfin : OffsetsOk out.2 r.2
      (a.content.filter (fun b => b.type = .heading)) := by
    rw [hout]
    exact OffsetsOk_append _ _ _ _ hmain
  rw [hhl]
  exact ⟨hfin.1, fun i blk off h1 h2 => hfin.2 i blk off h1 h2⟩

/-- The two-block article used for the C6 counterexample. -/
def artC6 : Article :=
  { title := gs "T",
    content := [{ type := .paragraph, text := gs "x" },
                { type := .heading, level := 1, text := gs "H" }] }

/-- C6 counterexample: the claim as stated is false — the recorded
offset is not the output's line count at the moment the heading's
divider and text are about to be written; the count is taken after the
divider, one line later. -/
theorem C6_counterexample :
    (renderArticle collab0 rst90 artC6).map (fun p => p.1.HeadingLines)
      ≠ some [countNL (renderTitle rst90 artC6 ++ gs "\n\n"
          ++ renderParagraph rst90 { type := .paragraph, text := gs "x" }
          ++ ['\n'])] := by decide

/-- C6 witness: the amended theorem applied to the concrete article. -/
theorem C6_witness :
    (renderArticle collab0 rst90 artC6).map (fun p => p.1.HeadingLines.length)
      = some (artC6.content.filter (fun b => b.type = .heading)).length := by
  cases hout : renderArticle collab0 rst90 artC6 with
  | none => exact absurd hout (by decide)
  | some out =>
    have h := C6_heading_offsets collab0 rst90 artC6 out (by decide) hout
    simp [h.1]

/-! ## Navigation model (`internal/ui`) -/

def searchHighlightP : GoStr := gs "1;48;5;205;38;5;0"

/-- The match loop of `Model.executeSearch`: indices of rendered lines
containing the (lowercased) query as a substring. -/
def searchMatchesAux (q : GoStr) : List GoStr → Nat → List Nat
  | [], _ => []
  | l :: rest, i =>
    (if goContains (goToLower l) (goToLower q) then [i] else []) ++
      searchMatchesAux q rest (i + 1)

/-- `Model.executeSearch`'s computed match set. -/
def executeSearch (lines : List GoStr) (q : GoStr) : List Nat :=
  if q = [] then [] else searchMatchesAux q lines 0

/-- `ui.Model` (spinner/prompt widget internals are external
collaborators and carry no state the claims touch). -/
structure UIModel where
  article : Option Article := none
  width : Int := 0
  height : Int := 0
  ready : Bool := false
  loading : Bool := true
  searching : Bool := false
  openingLink : Bool := false
  searchQuery : GoStr := []
  searchMatches : List Nat := []
  searchIdx : Nat := 0
  contentLines : List GoStr := []
  headingLines : List Nat := []
  rawContent : GoStr := []
  vpContent : GoStr := []
  vpYOffset : Nat := 0
  vpWidth : Int := 0
  vpHeight : Int := 0
deriving DecidableEq, Repr

/-- `Model.applyHighlights`: re-render the content with every matched
line wrapped in the highlight style; raw content when no matches. -/
def applyHighlights (m : UIModel) : UIModel :=
  if m.searchMatches = [] then { m with vpContent := m.rawContent }
  else
    { m with vpContent := joinNL (m.contentLines.enum.map (fun p =>
        if m.searchMatches.contains p.1 then sgr searchHighlightP p.2
        else p.2)) }

/-- `Model.executeSearch` (the method: clears and recomputes the match
set, then reapplies highlighting unless the query is empty). -/
def executeSearchM (m : UIModel) : UIModel :=
  if m.searchQuery = [] then { m with searchMatches := [] }
  else applyHighlights
    { m with searchMatches := executeSearch m.contentLines m.searchQuery }

/-- `Model.renderContent`: re-run the renderer at `min(width, 90)`,
store raw content, heading lines and split lines, then recompute and
re-apply search highlighting if a query is active. -/
def renderContentM (o : Collab) (ii : Bool) (m : UIModel) : Option UIModel :=
  match m.article with
  | none => none
  | some a =>
    match renderArticle o { width := min m.width 90, inlineImages := ii } a with
    | none => none
    | some r =>
      let m1 := { m with rawContent := r.2,
                         headingLines := r.1.HeadingLines,
                         contentLines := splitNL r.2 }
      if m1.searchQuery ≠ [] then
        some (applyHighlights (executeSearchM m1))
      else some { m1 with vpContent := r.2 }

/-- The `tea.WindowSizeMsg` arm of `Model.Update`: store the new size,
adjust the viewport, then re-render unless still loading. -/
def updateResize (o : Collab) (ii : Bool) (m : UIModel) (w h : Int) :
    Option UIModel :=
  let m1 := { m with width := w, height := h }
  let m2 :=
    if m1.ready = false then
      { m1 with vpWidth := w, vpHeight := h - 1, ready := true }
    else { m1 with vpWidth := w, vpHeight := h - 1 }
  if m2.loading = false ∧ m2.article.isSome then renderContentM o ii m2
  else some m2

/-! ## Claim C8 -/

theorem searchMatchesAux_mem (q : GoStr) :
    ∀ (lines : List GoStr) (start j : Nat),
      j ∈ searchMatchesAux q lines start ↔
      ∃ k l, j = start + k ∧ lines[k]? = some l ∧
        goContains (goToLower l) (goToLower q) = true := by
  intro lines
  induction lines with
  | nil =>
    intro start j
    simp [searchMatchesAux]
  | cons l rest ih =>
    intro start j
    simp only [searchMatchesAux, List.mem_append]
    constructor
    · intro h
      rcases h with h | h
      · refine ⟨0, l, ?_, by simp, ?_⟩
        · rcases Decidable.em
              (goContains (goToLower l) (goToLower q) = true) with hc | hc
          · rw [if_pos hc] at h
            simpa using h
          · rw [if_neg hc] at h
            simp at h
        · rcases Decidable.em
              (goContains (goToLower l) (goToLower q) = true) with hc | hc
          · exact hc
          · rw [if_neg hc] at h
            simp at h
      · obtain ⟨k, l2, hj, hget, hc⟩ := (ih (start + 1) j).mp h
        exact ⟨k + 1, l2, by omega, by simpa using hget, hc⟩
    · rintro ⟨k, l2, hj, hget, hc⟩
      cases k with
      | zero =>
        simp only [List.getElem?_cons_zero, Option.some_inj] at hget
        subst hget
        left
        rw [if_pos hc]
        simp [hj]
      | succ k2 =>
        right
        refine (ih (start + 1) j).mpr ⟨k2, l2, by omega, by simpa using hget, hc⟩

theorem searchMatchesAux_sorted (q : GoStr) :
    ∀ (lines : List GoStr) (start : Nat),
      List.Pairwise (· < ·) (searchMatchesAux q lines start)
      ∧ ∀ j ∈ searchMatchesAux q lines start, start ≤ j := by
  intro lines
  induction lines with
  | nil => intro start; simp [searchMatchesAux]
  | cons l rest ih =>
    intro start
    simp only [searchMatchesAux]
    constructor
    · apply List.pairwise_append.mpr
      refine ⟨?_, (ih (start + 1)).1, ?_⟩
      · split <;> simp
      · intro x hx y hy
        have hy2 := (ih (start + 1)).2 y hy
        have : x = start := by
          rcases Decidable.em
              (goContains (goToLower l) (goToLower q) = true) with hc | hc
          · rw [if_pos hc] at hx; simpa using hx
          · rw [if_neg hc] at hx; simp at hx
        omega
    · intro j hj
      rcases List.mem_append.mp hj with h | h
      · rcases Decidable.em
            (goContains (goToLower l) (goToLower q) = true) with hc | hc
        · rw [if_pos hc] at h
          simp only [List.mem_singleton] at h
          omega
        · rw [if_neg hc] at h
          simp at h
      · have := (ih (start + 1)).2 j h
        omega

theorem iterate_mod_add (K : Nat) (s : Nat) (hs : s < K) :
    ∀ n, (fun x => (x + 1) % K)^[n] s = (s + n) % K := by
  intro n
  induction n with
  | zero => simp [Nat.mod_eq_of_lt hs]
  | succ n ih =>
    rw [Function.iterate_succ_apply', ih]
    show ((s + n) % K + 1) % K = (s + (n + 1)) % K
    rw [Nat.mod_add_mod, Nat.add_assoc]

/-- C8: the computed match set lists, in strictly increasing order,
exactly the rendered lines that contain the committed non-empty query
case-insensitively — so a query matching exactly K distinct lines gives
K entries — and advancing the current-match pointer K times under the
wraparound rule `(i + 1) % K` returns it to its start. -/
theorem C8_search_match_count (lines : List GoStr) (q : GoStr) (K s : Nat)
    (hq : ¬q = []) (hK : (executeSearch lines q).length = K) (hs : s < K) :
    List.Pairwise (· < ·) (executeSearch lines q)
  ∧ (∀ j : Nat, j ∈ executeSearch lines q ↔
      ∃ l, lines[j]? = some l ∧
        goContains (goToLower l) (goToLower q) = true)
  ∧ (fun x => (x + 1) % K)^[K] s = s := by
  refine ⟨?_, ?_, ?_⟩
  · simp only [executeSearch, if_neg hq]
    exact (searchMatchesAux_sorted q lines 0).1
  · intro j
    simp only [executeSearch, if_neg hq]
    rw [searchMatchesAux_mem q lines 0 j]
    constructor
    · rintro ⟨k, l, hj, hget, hc⟩
      exact ⟨l, by simpa [hj] using hget, hc⟩
    · rintro ⟨l, hget, hc⟩
      exact ⟨j, l, by omega, hget, hc⟩
  · rw [iterate_mod_add K s hs K, Nat.add_mod_right]
    exact Nat.mod_eq_of_lt hs

/-- The concrete rendered lines used for the C8 witness. -/
def linesC8 : List GoStr :=
  [gs "has terminal", gs "nope", gs "TERMINAL x", gs "my Terminal"]

/-- C8 witness: the theorem applied at concrete content with exactly
three matching lines. -/
theorem C8_witness :
    List.Pairwise (· < ·) (executeSearch linesC8 (gs "terminal"))
  ∧ (0 ∈ executeSearch linesC8 (gs "terminal") ↔
      ∃ l, linesC8[0]? = some l ∧
        goContains (goToLower l) (goToLower (gs "terminal")) = true)
  ∧ (fun x => (x + 1) % 3)^[3] 0 = 0 := by
  have h := C8_search_match_count linesC8 (gs "terminal") 3 0
    (by decide) (by decide) (by decide)
  exact ⟨h.1, h.2.1 0, h.2.2⟩

/-! ## Claim C9 -/

theorem applyHighlights_searchQuery (m : UIModel) :
    (applyHighlights m).searchQuery = m.searchQuery := by
  simp only [applyHighlights]
  split <;> rfl

theorem applyHighlights_searchMatches (m : UIModel) :
    (applyHighlights m).searchMatches = m.searchMatches := by
  simp only [applyHighlights]
  split <;> rfl

theorem applyHighlights_contentLines (m : UIModel) :
    (applyHighlights m).contentLines = m.contentLines := by
  simp only [applyHighlights]
  split <;> rfl

theorem applyHighlights_rawContent (m : UIModel) :
    (applyHighlights m).rawContent = m.rawContent := by
  simp only [applyHighlights]
  split <;> rfl

theorem applyHighlights_headingLines (m : UIModel) :
    (applyHighlights m).headingLines = m.headingLines := by
  simp only [applyHighlights]
  split <;> rfl

theorem executeSearchM_searchQuery (m : UIModel) :
    (executeSearchM m).searchQuery = m.searchQuery := by
  simp only [executeSearchM]
  split
  · rfl
  · exact applyHighlights_searchQuery _

theorem executeSearchM_contentLines (m : UIModel) :
    (executeSearchM m).contentLines = m.contentLines := by
  simp only [executeSearchM]
  split
  · rfl
  · exact applyHighlights_contentLines _

theorem executeSearchM_rawContent (m : UIModel) :
    (executeSearchM m).rawContent = m.rawContent := by
  simp only [executeSearchM]
  split
  · rfl
  · exact applyHighlights_rawContent _

theorem executeSearchM_headingLines (m : UIModel) :
    (executeSearchM m).headingLines = m.headingLines := by
  simp only [executeSearchM]
  split
  · rfl
  · exact applyHighlights_headingLines _

theorem executeSearchM_searchMatches (m : UIModel)
    (hq : ¬m.searchQuery = []) :
    (executeSearchM m).searchMatches
      = executeSearch m.contentLines m.searchQuery := by
  simp only [executeSearchM, if_neg hq]
  rw [applyHighlights_searchMatches]

/-- What a successful `renderContent` guarantees when a query is
active. -/
theorem renderContent_shape (o : Collab) (ii : Bool) (m : UIModel)
    (a : Article) (m2 : UIModel)
    (ha : m.article = some a) (hq : ¬m.searchQuery = [])
    (hr : renderContentM o ii m = some m2) :
    m2.searchQuery = m.searchQuery
  ∧ (∃ r, renderArticle o { width := min m.width 90, inlineImages := ii } a
        = some r
      ∧ m2.rawContent = r.2
      ∧ m2.contentLines = splitNL r.2
      ∧ m2.headingLines = r.1.HeadingLines)
  ∧ m2.searchMatches = executeSearch m2.contentLines m.searchQuery := by
  simp only [renderContentM, ha] at hr
  cases hrr : renderArticle o { width := min m.width 90, inlineImages := ii } a with
  | none => rw [hrr] at hr; exact absurd hr (by simp)
  | some r =>
    rw [hrr] at hr
    dsimp only at hr
    rw [if_pos (by simpa using hq)] at hr
    simp only [Option.some_inj] at hr
    subst hr
    refine ⟨?_, ⟨r, rfl, ?_, ?_, ?_⟩, ?_⟩
    · rw [applyHighlights_searchQuery, executeSearchM_searchQuery]
    · rw [applyHighlights_rawContent, executeSearchM_rawContent]
    · rw [applyHighlights_contentLines, executeSearchM_contentLines]
    · rw [applyHighlights_headingLines, executeSearchM_headingLines]
    · rw [applyHighlights_searchMatches,
        executeSearchM_searchMatches _ (by simpa using hq),
        applyHighlights_contentLines, executeSearchM_contentLines]

/-- C9: a resize in a non-Loading state with an article present and an
active query re-renders the layout at width `min(newWidth, 90)`,
recomputes the match set against the newly rendered lines, and leaves
the stored query string unchanged. -/
theorem C9_resize_preserves_query (o : Collab) (ii : Bool) (m : UIModel)
    (w h : Int) (a : Article) (m2 : UIModel)
    (hload : m.loading = false) (ha : m.article = some a)
    (hq : ¬m.searchQuery = [])
    (hres : updateResize o ii m w h = some m2) :
    m2.searchQuery = m.searchQuery
  ∧ (∃ r, renderArticle o { width := min w 90, inlineImages := ii } a = some r
      ∧ m2.rawContent = r.2
      ∧ m2.contentLines = splitNL r.2
      ∧ m2.headingLines = r.1.HeadingLines)
  ∧ m2.searchMatches = executeSearch m2.contentLines m.searchQuery := by
  simp only [updateResize] at hres
  by_cases hready : m.ready = false
  · rw [if_pos hready] at hres
    rw [if_pos (by simp [hload, ha])] at hres
    exact renderContent_shape o ii _ a m2 (by simpa using ha) (by simpa using hq)
      hres
  · rw [if_neg hready] at hres
    rw [if_pos (by simp [hload, ha])] at hres
    exact renderContent_shape o ii _ a m2 (by simpa using ha) (by simpa using hq)
      hres

/-- The concrete model used for the C9 witness. -/
def m0 : UIModel :=
  { article := some { title := gs "T" }, width := 50, height := 30,
    ready := true, loading := false, searchQuery := gs "t" }

/-- C9 witness: the theorem applied at a concrete model and resize. -/
theorem C9_witness :
    (updateResize collab0 false m0 100 40).map (fun m2 => m2.searchQuery)
      = some (gs "t") := by
  cases hres : updateResize collab0 false m0 100 40 with
  | none => exact absurd hres (by decide)
  | some m2 =>
    have h := C9_resize_preserves_query collab0 false m0 100 40
      { title := gs "T" } m2 (by decide) (by decide) (by decide) hres
    show some m2.searchQuery = some (gs "t")
    rw [h.1]
    rfl
